import Mathlib

/-
Verification of the G29-wheel input-translation engine (src/main.py).
Floats are modelled as rationals; the pressed-key set, the edge-detection
tables and the LFO oscillator state are modelled explicitly; key and
trigger injections are modelled as explicit event lists.
-/

namespace G29

/-- An OS-level input injection performed by the keyboard sink. -/
inductive KeyEvent where
  | press (k : String)
  | release (k : String)
deriving DecidableEq

/-- The keyboard sink's set of currently pressed logical keys
(the Python set `current_keys_pressed`). -/
structure KeyState where
  pressed : List String
deriving DecidableEq

/-- press_key (src/main.py lines 520-542): injects a press and records the
key only when the key is not already in the pressed set. -/
def press_key (ks : KeyState) (k : String) : KeyState × List KeyEvent :=
  if k ∈ ks.pressed then (ks, [])
  else (⟨k :: ks.pressed⟩, [KeyEvent.press k])

/-- release_key (src/main.py lines 544-566): injects a release and removes
the key only when the key is currently in the pressed set. -/
def release_key (ks : KeyState) (k : String) : KeyState × List KeyEvent :=
  if k ∈ ks.pressed then (⟨ks.pressed.filter (fun s => s != k)⟩, [KeyEvent.release k])
  else (ks, [])

/-- The release loop of stop (src/main.py lines 726-727): iterate over a
snapshot list of keys, releasing each in turn. -/
def relAllAux : List String → KeyState → KeyState × List KeyEvent
  | [], ks => (ks, [])
  | k :: rest, ks =>
      let r := release_key ks k
      let r2 := relAllAux rest r.1
      (r2.1, r.2 ++ r2.2)

/-- Release of every currently pressed key, as performed by stop:
`for key in list(self.current_keys_pressed): self.release_key(key)`. -/
def releaseAll (ks : KeyState) : KeyState × List KeyEvent :=
  relAllAux ks.pressed ks

/-- The engine-relevant fields of WheelConfig (src/main.py lines 42-83),
with the dataclass defaults. -/
structure WheelConfig where
  steering_sensitivity : ℚ := 1
  steering_deadzone : ℚ := 1/20
  steering_range_degrees : ℚ := 450
  throttle_key : String := "w"
  brake_key : String := "s"
  keyboard_steering_lfo : Bool := true
  keyboard_steering_frequency : ℚ := 10
deriving DecidableEq

/-- A WheelConfig holding every dataclass default. -/
def default_config : WheelConfig := {}

/-- apply_deadzone (src/main.py lines 350-359). -/
def apply_deadzone (value deadzone : ℚ) : ℚ :=
  if |value| < deadzone then 0
  else if value > 0 then (value - deadzone) / (1 - deadzone)
  else (value + deadzone) / (1 - deadzone)

/-- apply_steering_range (src/main.py lines 361-363): returns its input
unchanged and reads no configuration. -/
def apply_steering_range (steering_value : ℚ) : ℚ :=
  steering_value

/-- smooth_value (src/main.py lines 365-367). -/
def smooth_value (current target smoothing : ℚ) : ℚ :=
  current + (target - current) * smoothing

/-- The sign function used to state the spec's deadzone rescaling formula
`(value - sign(value)*deadzone) / (1 - deadzone)`. -/
def signQ (x : ℚ) : ℚ :=
  if 0 < x then 1 else if x < 0 then -1 else 0

/-- The pedal-axis normalization performed inline by handle_pedals
(src/main.py lines 510-512): `(raw + 1) / 2`. -/
def normalize_pedal (raw : ℚ) : ℚ :=
  (raw + 1) / 2

/-- handle_pedals_keyboard (src/main.py lines 484-496): threshold-press of
the configured throttle and brake keys at normalized value > 0.1. -/
def handle_pedals_keyboard (cfg : WheelConfig) (ks : KeyState) (throttle brake : ℚ) :
    KeyState × List KeyEvent :=
  let r1 := if throttle > 1/10 then press_key ks cfg.throttle_key
            else release_key ks cfg.throttle_key
  let r2 := if brake > 1/10 then press_key r1.1 cfg.brake_key
            else release_key r1.1 cfg.brake_key
  (r2.1, r1.2 ++ r2.2)

/-- handle_pedals (src/main.py lines 503-518) on the non-virtual-gamepad
route: guard on the focus oracle, normalize each raw pedal axis inline as
`(raw + 1) / 2`, then run the keyboard pedal path. The clutch value is
normalized by the source but unused on this route. -/
def handle_pedals (cfg : WheelConfig) (ks : KeyState) (focused : Bool)
    (throttle brake clutch : ℚ) : KeyState × List KeyEvent :=
  if !focused then (ks, [])
  else handle_pedals_keyboard cfg ks (normalize_pedal throttle) (normalize_pedal brake)

/-- Clamp to the unit interval, Python's `max(0, min(1, x))`. -/
def clamp01 (x : ℚ) : ℚ :=
  max 0 (min 1 x)

/-- The trigger value computed by update_throttle_brake in triggers mode
(src/main.py lines 156-157): `int(max(0, min(1, 1 - v)) * 255)`. The
argument of Python's truncating int() is nonnegative here, so it equals
the floor. -/
def trigger_of (v : ℚ) : ℤ :=
  ⌊clamp01 (1 - v) * 255⌋

/-- update_throttle_brake (src/main.py lines 148-162) in triggers mode:
the throttle drives the right trigger and the brake the left trigger,
each through trigger_of. Returned as (right trigger, left trigger). -/
def update_throttle_brake (throttle brake : ℚ) : ℤ × ℤ :=
  (trigger_of throttle, trigger_of brake)

/-- The LFO tap frequency computed by handle_steering_keyboard
(src/main.py line 391): `base_frequency * (0.5 + intensity * 1.5)` with
intensity the absolute conditioned steering value. -/
def lfo_frequency (base v : ℚ) : ℚ :=
  base * (1/2 + |v| * (3/2))

/-- The mutable state read and written by handle_steering_keyboard:
the pressed-key set, last_lfo_time and lfo_state
(src/main.py lines 298-304). -/
structure SteerState where
  keys : KeyState
  last_lfo_time : ℚ
  lfo_state : Bool
deriving DecidableEq

/-- The initial controller state set by EnhancedG29Controller.__init__:
no keys pressed, last_lfo_time 0.0, lfo_state False. -/
def initSteerState : SteerState :=
  { keys := ⟨[]⟩, last_lfo_time := 0, lfo_state := false }

/-- handle_steering_keyboard (src/main.py lines 369-420): condition the
raw value (deadzone, range, sensitivity); below magnitude 0.02 release
both direction keys; otherwise in LFO mode toggle lfo_state whenever a
period 1/frequency has elapsed, pressing the key for the sign of the
value and releasing the opposite on the high phase and releasing both on
the low phase; in non-LFO mode steadily press one key and release the
other. -/
def handle_steering_keyboard (cfg : WheelConfig) (st : SteerState) (t s : ℚ) : SteerState :=
  let v := apply_steering_range (apply_deadzone s cfg.steering_deadzone) * cfg.steering_sensitivity
  if |v| < 1/50 then
    { st with keys := (release_key (release_key st.keys "a").1 "d").1 }
  else if cfg.keyboard_steering_lfo then
    if t - st.last_lfo_time ≥ 1 / lfo_frequency cfg.keyboard_steering_frequency v then
      if !st.lfo_state then
        if v > 0 then
          { keys := (release_key (press_key st.keys "d").1 "a").1,
            last_lfo_time := t, lfo_state := !st.lfo_state }
        else
          { keys := (release_key (press_key st.keys "a").1 "d").1,
            last_lfo_time := t, lfo_state := !st.lfo_state }
      else
        { keys := (release_key (release_key st.keys "a").1 "d").1,
          last_lfo_time := t, lfo_state := !st.lfo_state }
    else st
  else
    if v > 0 then
      { st with keys := (release_key (press_key st.keys "d").1 "a").1 }
    else
      { st with keys := (release_key (press_key st.keys "a").1 "d").1 }

/-- Iterated handle_steering_keyboard over a list of (time, steering)
samples, one per tick. -/
def runSteer (cfg : WheelConfig) (st : SteerState) : List (ℚ × ℚ) → SteerState
  | [] => st
  | p :: rest => runSteer cfg (handle_steering_keyboard cfg st p.1 p.2) rest

/-- Lookup in the edge tracker's per-button table with Python's
`self.button_states.get(button_id, False)` default. -/
def lookupB (tbl : List (ℕ × Bool)) (i : ℕ) : Bool :=
  match tbl.find? (fun p => p.1 == i) with
  | some p => p.2
  | none => false

/-- Store into the edge tracker's per-button table
(`self.button_states[button_id] = button_pressed`). -/
def setB (tbl : List (ℕ × Bool)) (i : ℕ) (b : Bool) : List (ℕ × Bool) :=
  (i, b) :: tbl.filter (fun p => p.1 != i)

/-- Lookup of a button id in the configured button mappings. -/
def lookupKey (m : List (ℕ × String)) (i : ℕ) : Option String :=
  (m.find? (fun p => p.1 == i)).map (fun p => p.2)

/-- One iteration of the handle_buttons loop body (src/main.py lines
613-650) for button i on the keyboard route: fire press_key on a
released-to-pressed edge and release_key on a pressed-to-released edge
when the button is mapped, then record the new state. -/
def processButton (m : List (ℕ × String)) (i : ℕ) (cur : Bool)
    (tbl : List (ℕ × Bool)) (ks : KeyState) :
    List (ℕ × Bool) × KeyState × List KeyEvent :=
  let was := lookupB tbl i
  let r :=
    if cur && !was then
      match lookupKey m i with
      | some k => press_key ks k
      | none => (ks, [])
    else if !cur && was then
      match lookupKey m i with
      | some k => release_key ks k
      | none => (ks, [])
    else (ks, [])
  (setB tbl i cur, r.1, r.2)

/-- The loop of handle_buttons over the button indices. -/
def buttonsLoop (m : List (ℕ × String)) (frame : ℕ → Bool) :
    List ℕ → List (ℕ × Bool) × KeyState × List KeyEvent →
    List (ℕ × Bool) × KeyState × List KeyEvent
  | [], acc => acc
  | i :: rest, acc =>
      let r := processButton m i (frame i) acc.1 acc.2.1
      buttonsLoop m frame rest (r.1, r.2.1, acc.2.2 ++ r.2.2)

/-- handle_buttons (src/main.py lines 608-650) on the keyboard route:
return untouched unless the focus oracle holds and the mapping dict is
nonempty, otherwise run the edge-detection loop over all button indices
of the raw frame. -/
def handle_buttons (m : List (ℕ × String)) (focused : Bool) (n : ℕ)
    (frame : ℕ → Bool) (tbl : List (ℕ × Bool)) (ks : KeyState) :
    List (ℕ × Bool) × KeyState × List KeyEvent :=
  if !focused || m.isEmpty then (tbl, ks, [])
  else buttonsLoop m frame (List.range n) (tbl, ks, [])

/-- Iterated handle_buttons for a single button (index 0) mapped to key k,
focus oracle true on every tick, one raw boolean per tick. -/
def runButtons1 (k : String) (tbl : List (ℕ × Bool)) (ks : KeyState) :
    List Bool → List (ℕ × Bool) × KeyState × List KeyEvent
  | [] => (tbl, ks, [])
  | b :: rest =>
      let r := handle_buttons [(0, k)] true 1 (fun _ => b) tbl ks
      let r2 := runButtons1 k r.1 r.2.1 rest
      (r2.1, r2.2.1, r.2.2 ++ r2.2.2)

/-- Lookup in the edge tracker's per-hat-direction table with Python's
`self.dpad_states.get(key, False)` default. -/
def lookupD (tbl : List (String × Bool)) (d : String) : Bool :=
  match tbl.find? (fun p => p.1 == d) with
  | some p => p.2
  | none => false

/-- Store into the edge tracker's per-hat-direction table. -/
def setD (tbl : List (String × Bool)) (d : String) (b : Bool) : List (String × Bool) :=
  (d, b) :: tbl.filter (fun p => p.1 != d)

/-- The direction-to-key mapping of handle_dpad (src/main.py lines
578-583), in the source's iteration order. -/
def dpadSteps : List (String × String) :=
  [("up", "1"), ("down", "2"), ("left", "3"), ("right", "4")]

/-- Whether a hat value presses a given direction
(src/main.py lines 586-591). -/
def dpadPressed (hat : ℤ × ℤ) (dir : String) : Bool :=
  if dir = "up" then hat.2 == 1
  else if dir = "down" then hat.2 == -1
  else if dir = "left" then hat.1 == -1
  else hat.1 == 1

/-- The per-direction loop body of handle_dpad for hat 0 (src/main.py
lines 593-606): edge-detect each direction and record the new state. -/
def dpadLoop (hat : ℤ × ℤ) :
    List (String × String) → List (String × Bool) × KeyState →
    List (String × Bool) × KeyState
  | [], acc => acc
  | (dir, key) :: rest, (tbl, ks) =>
      let pr := dpadPressed hat dir
      let was := lookupD tbl ("0_" ++ dir)
      let ks' := if pr && !was then (press_key ks key).1
                 else if !pr && was then (release_key ks key).1
                 else ks
      dpadLoop hat rest (setD tbl ("0_" ++ dir) pr, ks')

/-- handle_dpad (src/main.py lines 568-606) for a single hat: return
untouched unless the focus oracle holds, otherwise edge-detect the four
directions. -/
def handle_dpad (focused : Bool) (hat : ℤ × ℤ) (tbl : List (String × Bool))
    (ks : KeyState) : List (String × Bool) × KeyState :=
  if !focused then (tbl, ks)
  else dpadLoop hat dpadSteps (tbl, ks)

/-! Helper lemmas about the keyboard sink. -/

theorem mem_press_key (ks : KeyState) (k x : String) :
    x ∈ ((press_key ks k).1).pressed ↔ x = k ∨ x ∈ ks.pressed := by
  unfold press_key
  split_ifs with h
  · constructor
    · exact fun hx => Or.inr hx
    · rintro (rfl | hx)
      · exact h
      · exact hx
  · simp [List.mem_cons]

theorem mem_release_key (ks : KeyState) (k x : String) :
    x ∈ ((release_key ks k).1).pressed ↔ x ∈ ks.pressed ∧ x ≠ k := by
  unfold release_key
  split_ifs with h
  · simp [List.mem_filter]
  · constructor
    · intro hx
      refine ⟨hx, fun he => h ?_⟩
      exact he ▸ hx
    · exact fun hx => hx.1

theorem not_mem_release_self (ks : KeyState) (k : String) :
    k ∉ ((release_key ks k).1).pressed := by
  rw [mem_release_key]
  exact fun h => h.2 rfl

theorem relAllAux_empty (L : List String) :
    ∀ ks : KeyState, (∀ x ∈ ks.pressed, x ∈ L) → (relAllAux L ks).1.pressed = [] := by
  induction L with
  | nil =>
      intro ks h
      have hnil : ks.pressed = [] :=
        List.eq_nil_iff_forall_not_mem.mpr fun x hx => (List.not_mem_nil x) (h x hx)
      simp [relAllAux, hnil]
  | cons k rest ih =>
      intro ks h
      show (relAllAux rest (release_key ks k).1).1.pressed = []
      apply ih
      intro x hx
      obtain ⟨hmem, hne⟩ := (mem_release_key ks k x).mp hx
      rcases List.mem_cons.mp (h x hmem) with rfl | hr
      · exact absurd rfl hne
      · exact hr

/-! Claim theorems. -/

/-- C1: handle_pedals normalizes a raw pedal axis as (raw + 1) / 2, which
sends raw -1 (fully pressed per the device convention, and per the code's
own comment meant to map to 1) to normalized 0, so a fully pressed
throttle pedal does not exceed the 0.1 threshold and the bound key is
released rather than pressed; a fully released pedal (raw +1) is what
presses the key. This evaluates the code at the failing input. -/
theorem pedal_normalization_inversion_bug :
    normalize_pedal (-1) = 0 ∧
    handle_pedals default_config ⟨[]⟩ true (-1) (-1) (-1) = (⟨[]⟩, []) ∧
    KeyEvent.press "w" ∈ (handle_pedals default_config ⟨[]⟩ true 1 1 1).2 := by
  refine ⟨by norm_num [normalize_pedal], ?_, ?_⟩
  · norm_num [handle_pedals, handle_pedals_keyboard, normalize_pedal, press_key,
      release_key, default_config]
  · norm_num [handle_pedals, handle_pedals_keyboard, normalize_pedal, press_key,
      release_key, default_config]

/-- C2 counterexample: on an unfocused tick with raw button 0 pressed,
handle_buttons performs no sink mutation, but contrary to the claim it
also leaves the edge tracker's prior-state table untouched: the stored
state for button 0 still reads false, whereas an update from the raw
frame would have recorded true. -/
theorem unfocused_tick_skips_edge_update_cex :
    (handle_buttons [(0, "e")] false 1 (fun _ => true) [] ⟨[]⟩).2 = (⟨[]⟩, []) ∧
    lookupB (handle_buttons [(0, "e")] false 1 (fun _ => true) [] ⟨[]⟩).1 0 = false ∧
    lookupB (setB [] 0 true) 0 = true :=
  ⟨rfl, rfl, rfl⟩

/-- C2 amended: on every tick on which the focus oracle returns false,
handle_buttons and handle_dpad perform no sink mutation and also leave
the edge tracker's prior-state tables completely unchanged (they return
before any per-input processing). -/
theorem unfocused_tick_noop (m : List (ℕ × String)) (n : ℕ) (frame : ℕ → Bool)
    (tbl : List (ℕ × Bool)) (ks : KeyState) (hat : ℤ × ℤ)
    (dtbl : List (String × Bool)) :
    handle_buttons m false n frame tbl ks = (tbl, ks, []) ∧
    handle_dpad false hat dtbl ks = (dtbl, ks) :=
  ⟨rfl, rfl⟩

/-- C4 counterexample: in trigger mode, update_throttle_brake maps input
value 0 to trigger output 255 on both triggers, not to 0 as claimed. -/
theorem trigger_mapping_cex :
    update_throttle_brake 0 0 ≠ (0, 0) ∧ update_throttle_brake 0 0 = (255, 255) := by
  have h : update_throttle_brake 0 0 = (255, 255) := by
    norm_num [update_throttle_brake, trigger_of, clamp01]
  exact ⟨by rw [h]; decide, h⟩

/-- C4 amended: in trigger mode, update_throttle_brake computes each
trigger as int(max(0, min(1, 1 - v)) * 255), so input 0 maps to trigger
output 255 and input 1 maps to trigger output 0, for both the throttle
(right) trigger and the brake (left) trigger; the code treats input 0 as
fully pressed, per its own comment. -/
theorem trigger_mapping_endpoints :
    update_throttle_brake 0 0 = (255, 255) ∧ update_throttle_brake 1 1 = (0, 0) := by
  constructor <;> norm_num [update_throttle_brake, trigger_of, clamp01]

/-- C5 counterexample: with the oscillator phase high (lfo_state true),
a steering value inside the inner deadzone leaves lfo_state true;
handle_steering_keyboard does not reset it to false. -/
theorem deadzone_lfo_state_not_reset_cex :
    (handle_steering_keyboard default_config
      { keys := ⟨[]⟩, last_lfo_time := 0, lfo_state := true } 0 0).lfo_state ≠ false := by
  have h : (handle_steering_keyboard default_config
      { keys := ⟨[]⟩, last_lfo_time := 0, lfo_state := true } 0 0).lfo_state = true := by
    norm_num [handle_steering_keyboard, apply_deadzone, apply_steering_range,
      default_config, release_key]
  rw [h]
  decide

/-- C10: apply_steering_range is the identity function, and the
configured steering_range_degrees field has no effect on the keyboard
steering handler or the pedal handler. -/
theorem apply_steering_range_identity (v r t s throttle brake clutch : ℚ)
    (cfg : WheelConfig) (st : SteerState) (ks : KeyState) (focused : Bool) :
    apply_steering_range v = v ∧
    handle_steering_keyboard { cfg with steering_range_degrees := r } st t s =
      handle_steering_keyboard cfg st t s ∧
    handle_pedals { cfg with steering_range_degrees := r } ks focused throttle brake clutch =
      handle_pedals cfg ks focused throttle brake clutch :=
  ⟨rfl, rfl, rfl⟩

/-- C9: pressing an already-pressed key and releasing an unpressed key
are no-ops (no injection, pressed set unchanged); the release-all loop
performed by stop leaves the pressed set empty, and a second consecutive
release-all is a no-op producing no injections. -/
theorem sink_idempotence_release_all (ks : KeyState) (k k2 : String)
    (h1 : k ∈ ks.pressed) (h2 : k2 ∉ ks.pressed) :
    press_key ks k = (ks, []) ∧
    release_key ks k2 = (ks, []) ∧
    (releaseAll ks).1.pressed = [] ∧
    releaseAll (releaseAll ks).1 = (⟨[]⟩, []) := by
  have hempty : (releaseAll ks).1.pressed = [] :=
    relAllAux_empty ks.pressed ks fun x hx => hx
  refine ⟨by simp [press_key, h1], by simp [release_key, h2], hempty, ?_⟩
  have heta : (releaseAll ks).1 = ⟨[]⟩ := by
    cases hres : (releaseAll ks).1 with
    | mk l =>
        rw [hres] at hempty
        simp only at hempty
        rw [hempty]
  rw [heta]
  rfl

/-- C9 witness at a concrete sink state. -/
theorem sink_idempotence_release_all_witness :
    press_key ⟨["w", "a"]⟩ "w" = (⟨["w", "a"]⟩, []) ∧
    release_key ⟨["w", "a"]⟩ "z" = (⟨["w", "a"]⟩, []) ∧
    (releaseAll ⟨["w", "a"]⟩).1.pressed = [] ∧
    releaseAll (releaseAll ⟨["w", "a"]⟩).1 = (⟨[]⟩, []) :=
  sink_idempotence_release_all ⟨["w", "a"]⟩ "w" "z" (by simp) (by simp)

/-- C5 amended: when the conditioned steering value has magnitude below
0.02, handle_steering_keyboard releases both direction keys but leaves
the oscillator phase state (lfo_state) and the last-toggle timestamp
unchanged; no reset to the low phase occurs. -/
theorem deadzone_releases_keys_keeps_lfo_state (cfg : WheelConfig) (st : SteerState) (t s : ℚ)
    (h : |apply_steering_range (apply_deadzone s cfg.steering_deadzone) *
          cfg.steering_sensitivity| < 1/50) :
    (handle_steering_keyboard cfg st t s).lfo_state = st.lfo_state ∧
    (handle_steering_keyboard cfg st t s).last_lfo_time = st.last_lfo_time ∧
    "a" ∉ (handle_steering_keyboard cfg st t s).keys.pressed ∧
    "d" ∉ (handle_steering_keyboard cfg st t s).keys.pressed := by
  simp only [handle_steering_keyboard]
  rw [if_pos h]
  refine ⟨rfl, rfl, ?_, not_mem_release_self _ _⟩
  intro ha
  have h2 := (mem_release_key _ "d" "a").mp ha
  have h3 := (mem_release_key _ "a" "a").mp h2.1
  exact h3.2 rfl

/-- C5 amended, witness: oscillator high, keys a and w held, steering 0. -/
theorem deadzone_releases_keys_keeps_lfo_state_witness :
    (handle_steering_keyboard default_config
        ⟨⟨["a", "w"]⟩, 3, true⟩ 5 0).lfo_state = true ∧
    (handle_steering_keyboard default_config
        ⟨⟨["a", "w"]⟩, 3, true⟩ 5 0).last_lfo_time = 3 ∧
    "a" ∉ (handle_steering_keyboard default_config
        ⟨⟨["a", "w"]⟩, 3, true⟩ 5 0).keys.pressed ∧
    "d" ∉ (handle_steering_keyboard default_config
        ⟨⟨["a", "w"]⟩, 3, true⟩ 5 0).keys.pressed :=
  deadzone_releases_keys_keeps_lfo_state default_config ⟨⟨["a", "w"]⟩, 3, true⟩ 5 0
    (by norm_num [apply_deadzone, apply_steering_range, default_config])

/-- Single-step preservation: handle_steering_keyboard never leaves both
direction keys in the pressed set if they were not both there before. -/
theorem handle_steering_keyboard_ad (cfg : WheelConfig) (st : SteerState) (t s : ℚ)
    (h : ¬("a" ∈ st.keys.pressed ∧ "d" ∈ st.keys.pressed)) :
    ¬("a" ∈ (handle_steering_keyboard cfg st t s).keys.pressed ∧
      "d" ∈ (handle_steering_keyboard cfg st t s).keys.pressed) := by
  simp only [handle_steering_keyboard]
  split_ifs <;>
    first
      | exact h
      | exact fun hc => not_mem_release_self _ _ hc.2
      | exact fun hc => not_mem_release_self _ _ hc.1

theorem runSteer_ad (cfg : WheelConfig) (inputs : List (ℚ × ℚ)) :
    ∀ st : SteerState, ¬("a" ∈ st.keys.pressed ∧ "d" ∈ st.keys.pressed) →
      ¬("a" ∈ (runSteer cfg st inputs).keys.pressed ∧
        "d" ∈ (runSteer cfg st inputs).keys.pressed) := by
  induction inputs with
  | nil => exact fun st h => h
  | cons p rest ih =>
      exact fun st h => ih _ (handle_steering_keyboard_ad cfg st p.1 p.2 h)

/-- C3: for every configuration (LFO or non-LFO) and every sequence of
(time, steering) samples fed to handle_steering_keyboard from the initial
controller state, the left key a and the right key d are never both in
the pressed-keys set. -/
theorem steering_keys_mutually_exclusive (cfg : WheelConfig) (inputs : List (ℚ × ℚ)) :
    ¬("a" ∈ (runSteer cfg initSteerState inputs).keys.pressed ∧
      "d" ∈ (runSteer cfg initSteerState inputs).keys.pressed) :=
  runSteer_ad cfg inputs initSteerState (by simp [initSteerState])

/-- The magnitude of apply_deadzone as a function of the input magnitude. -/
theorem abs_apply_deadzone (v d : ℚ) (hd0 : 0 ≤ d) (hd1 : d < 1) :
    |apply_deadzone v d| = if |v| < d then 0 else (|v| - d) / (1 - d) := by
  have h1d : (0 : ℚ) < 1 - d := by linarith
  unfold apply_deadzone
  split_ifs with h1 h2
  · simp
  · have hv : |v| = v := abs_of_pos h2
    rw [hv] at h1 ⊢
    have hvd : d ≤ v := not_lt.mp h1
    rw [abs_of_nonneg (div_nonneg (by linarith) h1d.le)]
  · have hv2 : v ≤ 0 := not_lt.mp h2
    have hv : |v| = -v := abs_of_nonpos hv2
    rw [hv] at h1 ⊢
    have hvd : d ≤ -v := not_lt.mp h1
    have hnum : v + d ≤ 0 := by linarith
    rw [abs_of_nonpos (div_nonpos_of_nonpos_of_nonneg hnum h1d.le)]
    rw [← neg_div]
    ring_nf

/-- C6 amended: for values in [-1,1] and deadzone in [0,1),
apply_deadzone returns 0 iff the input magnitude is at most the deadzone
(the boundary |value| = deadzone also yields 0, so the strict-inequality
iff of the claim fails only there); on inputs of magnitude at least the
deadzone it equals (value - sign(value)*deadzone) / (1 - deadzone), its
magnitude is monotone in the input magnitude, and it reaches exactly 1 at
value 1 and -1 at value -1. -/
theorem apply_deadzone_spec (u v w d : ℚ)
    (hu1 : -1 ≤ u) (hu2 : u ≤ 1) (hv1 : -1 ≤ v) (hv2 : v ≤ 1)
    (hw1 : -1 ≤ w) (hw2 : w ≤ 1) (hd0 : 0 ≤ d) (hd1 : d < 1)
    (hvd : d ≤ |v|) (hmono : |v| ≤ |w|) :
    (apply_deadzone u d = 0 ↔ |u| ≤ d) ∧
    apply_deadzone v d = (v - signQ v * d) / (1 - d) ∧
    |apply_deadzone v d| ≤ |apply_deadzone w d| ∧
    apply_deadzone 1 d = 1 ∧ apply_deadzone (-1) d = -1 := by
  have h1d : (0 : ℚ) < 1 - d := by linarith
  refine ⟨?_, ?_, ?_, ?_, ?_⟩
  · rw [← abs_eq_zero, abs_apply_deadzone u d hd0 hd1]
    split_ifs with h1
    · simp only [true_iff]
      exact h1.le
    · rw [div_eq_zero_iff]
      constructor
      · rintro (hz | hz)
        · linarith [sub_eq_zero.mp hz]
        · linarith
      · intro hle
        left
        have := not_lt.mp h1
        linarith
  · rcases lt_trichotomy v 0 with hv | hv | hv
    · have hsq : signQ v = -1 := by
        unfold signQ
        rw [if_neg (by linarith), if_pos hv]
      have habs : |v| = -v := abs_of_neg hv
      unfold apply_deadzone
      rw [if_neg (by rw [habs] at hvd ⊢; exact not_lt.mpr hvd), if_neg (by linarith)]
      rw [hsq]
      ring_nf
    · subst hv
      have hd00 : d = 0 := by
        simp only [abs_zero] at hvd
        linarith
      subst hd00
      norm_num [apply_deadzone, signQ]
    · have hsq : signQ v = 1 := by
        unfold signQ
        rw [if_pos hv]
      have habs : |v| = v := abs_of_pos hv
      unfold apply_deadzone
      rw [if_neg (by rw [habs] at hvd ⊢; exact not_lt.mpr hvd), if_pos hv]
      rw [hsq]
      ring_nf
  · rw [abs_apply_deadzone v d hd0 hd1, abs_apply_deadzone w d hd0 hd1]
    rw [if_neg (not_lt.mpr hvd), if_neg (not_lt.mpr (le_trans hvd hmono))]
    gcongr
  · unfold apply_deadzone
    rw [if_neg (by rw [abs_one]; linarith), if_pos (by norm_num : (1 : ℚ) > 0)]
    exact div_self (ne_of_gt h1d)
  · unfold apply_deadzone
    rw [if_neg (by rw [abs_neg, abs_one]; linarith), if_neg (by norm_num)]
    rw [div_eq_iff (ne_of_gt h1d)]
    ring

/-- C6 amended, witness at u = 1/10, v = 1/2, w = 3/4, deadzone 1/5. -/
theorem apply_deadzone_spec_witness :
    (apply_deadzone (1/10) (1/5) = 0 ↔ |(1/10 : ℚ)| ≤ 1/5) ∧
    apply_deadzone (1/2) (1/5) = (1/2 - signQ (1/2) * (1/5)) / (1 - 1/5) ∧
    |apply_deadzone (1/2) (1/5)| ≤ |apply_deadzone (3/4) (1/5)| ∧
    apply_deadzone 1 (1/5) = 1 ∧ apply_deadzone (-1) (1/5) = -1 :=
  apply_deadzone_spec (1/10) (1/2) (3/4) (1/5)
    (by norm_num) (by norm_num) (by norm_num) (by norm_num) (by norm_num) (by norm_num)
    (by norm_num) (by norm_num)
    (by rw [show |(1/2 : ℚ)| = 1/2 from abs_of_pos (by norm_num)]; norm_num)
    (by rw [show |(1/2 : ℚ)| = 1/2 from abs_of_pos (by norm_num),
            show |(3/4 : ℚ)| = 3/4 from abs_of_pos (by norm_num)]; norm_num)

/-- C6 counterexample: at value = deadzone = 1/2 the code returns exactly
0 although |value| < deadzone is false, so the claimed strict-inequality
iff does not hold at the boundary. -/
theorem apply_deadzone_boundary_cex :
    apply_deadzone (1/2) (1/2) = 0 ∧ ¬(|(1/2 : ℚ)| < 1/2) := by
  have h : |(1/2 : ℚ)| = 1/2 := abs_of_pos (by norm_num)
  constructor
  · norm_num [apply_deadzone, h]
  · rw [h]
    exact lt_irrefl _

/-- A zero deadzone leaves the value unchanged. -/
theorem apply_deadzone_zero (s : ℚ) : apply_deadzone s 0 = s := by
  unfold apply_deadzone
  split_ifs with h1 h2
  · exact absurd h1 (not_lt.mpr (abs_nonneg s)).elim
  · ring_nf
  · ring_nf

/-- C7: in LFO mode, for a conditioned steering value of magnitude at
least the inner threshold 0.02, the tap frequency used by
handle_steering_keyboard is base * (0.5 + |s| * 1.5), the oscillator
phase toggles exactly when the elapsed time reaches the period
1/frequency, and s = 0.9 at base 10 Hz yields 18.5 Hz. The configuration
uses zero steering deadzone and unit sensitivity so the conditioned value
equals s. -/
theorem lfo_frequency_spec (base s t : ℚ) (st : SteerState)
    (hbase : 0 < base) (hs : 1/50 ≤ |s|) :
    lfo_frequency base s = base * (1/2 + |s| * (3/2)) ∧
    lfo_frequency 10 (9/10) = 37/2 ∧
    ((handle_steering_keyboard
        { default_config with steering_deadzone := 0, keyboard_steering_frequency := base }
        st t s).lfo_state = (!st.lfo_state) ↔
      1 / lfo_frequency base s ≤ t - st.last_lfo_time) := by
  refine ⟨rfl, ?_, ?_⟩
  · rw [lfo_frequency, show |(9/10 : ℚ)| = 9/10 from abs_of_pos (by norm_num)]
    norm_num
  · simp only [handle_steering_keyboard, apply_steering_range, apply_deadzone_zero,
      default_config]
    rw [mul_one]
    rw [if_neg (not_lt.mpr hs), if_pos trivial]
    split_ifs with htog h2 h3
    · exact iff_of_true rfl htog
    · exact iff_of_true rfl htog
    · exact iff_of_true rfl htog
    · refine iff_of_false ?_ htog
      cases st.lfo_state <;> simp

/-- C7 witness at base 10 Hz, steering 0.9, one second elapsed. -/
theorem lfo_frequency_spec_witness :
    (lfo_frequency 10 (9/10) = 10 * (1/2 + |(9/10 : ℚ)| * (3/2)) ∧
    lfo_frequency 10 (9/10) = 37/2 ∧
    ((handle_steering_keyboard
        { default_config with steering_deadzone := 0, keyboard_steering_frequency := 10 }
        initSteerState 1 (9/10)).lfo_state = (!initSteerState.lfo_state) ↔
      1 / lfo_frequency 10 (9/10) ≤ 1 - initSteerState.last_lfo_time)) :=
  lfo_frequency_spec 10 (9/10) 1 initSteerState (by norm_num)
    (by rw [show |(9/10 : ℚ)| = 9/10 from abs_of_pos (by norm_num)]; norm_num)

/-! Helper lemmas about the button edge tracker. -/

theorem range1 : List.range 1 = [0] := by
  simp [List.range_succ]

theorem lookupB_setB (tbl : List (ℕ × Bool)) (i : ℕ) (b : Bool) :
    lookupB (setB tbl i b) i = b := by
  simp [lookupB, setB]

theorem hb1_steady_false (k : String) (tbl : List (ℕ × Bool)) (ks : KeyState)
    (h : lookupB tbl 0 = false) :
    handle_buttons [(0, k)] true 1 (fun _ => false) tbl ks = (setB tbl 0 false, ks, []) := by
  simp [handle_buttons, buttonsLoop, processButton, h, range1]

theorem hb1_rise (k : String) (tbl : List (ℕ × Bool)) (ks : KeyState)
    (h : lookupB tbl 0 = false) :
    handle_buttons [(0, k)] true 1 (fun _ => true) tbl ks =
      (setB tbl 0 true, press_key ks k) := by
  simp [handle_buttons, buttonsLoop, processButton, lookupKey, h, range1]

theorem hb1_steady_true (k : String) (tbl : List (ℕ × Bool)) (ks : KeyState)
    (h : lookupB tbl 0 = true) :
    handle_buttons [(0, k)] true 1 (fun _ => true) tbl ks = (setB tbl 0 true, ks, []) := by
  simp [handle_buttons, buttonsLoop, processButton, h, range1]

theorem hb1_fall (k : String) (tbl : List (ℕ × Bool)) (ks : KeyState)
    (h : lookupB tbl 0 = true) :
    handle_buttons [(0, k)] true 1 (fun _ => false) tbl ks =
      (setB tbl 0 false, release_key ks k) := by
  simp [handle_buttons, buttonsLoop, processButton, lookupKey, h, range1]

theorem runButtons1_replicate_false (k : String) (n : ℕ) :
    ∀ (tbl : List (ℕ × Bool)) (ks : KeyState) (rest : List Bool),
      lookupB tbl 0 = false →
      ∃ tbl2, lookupB tbl2 0 = false ∧
        runButtons1 k tbl ks (List.replicate n false ++ rest) = runButtons1 k tbl2 ks rest := by
  induction n with
  | zero => exact fun tbl ks rest h => ⟨tbl, h, rfl⟩
  | succ n ih =>
      intro tbl ks rest h
      obtain ⟨tbl2, h2, heq⟩ := ih (setB tbl 0 false) ks rest (lookupB_setB tbl 0 false)
      refine ⟨tbl2, h2, ?_⟩
      rw [List.replicate_succ, List.cons_append]
      simp only [runButtons1, hb1_steady_false k tbl ks h, List.nil_append]
      rw [heq]

theorem runButtons1_replicate_true (k : String) (n : ℕ) :
    ∀ (tbl : List (ℕ × Bool)) (ks : KeyState) (rest : List Bool),
      lookupB tbl 0 = true →
      ∃ tbl2, lookupB tbl2 0 = true ∧
        runButtons1 k tbl ks (List.replicate n true ++ rest) = runButtons1 k tbl2 ks rest := by
  induction n with
  | zero => exact fun tbl ks rest h => ⟨tbl, h, rfl⟩
  | succ n ih =>
      intro tbl ks rest h
      obtain ⟨tbl2, h2, heq⟩ := ih (setB tbl 0 true) ks rest (lookupB_setB tbl 0 true)
      refine ⟨tbl2, h2, ?_⟩
      rw [List.replicate_succ, List.cons_append]
      simp only [runButtons1, hb1_steady_true k tbl ks h, List.nil_append]
      rw [heq]

/-- C8: starting from an empty edge table (unknown inputs default to
released) and an empty pressed set, with the focus oracle true on every
tick, a trace in which button 0 reads released for a ticks, then pressed
for b+1 ticks, then released for c+1 ticks makes handle_buttons emit
exactly one press and then one release of the mapped key; all steady
ticks emit nothing. -/
theorem button_edge_single_press_release (k : String) (a b c : ℕ) :
    (runButtons1 k [] ⟨[]⟩
      (List.replicate a false ++ List.replicate (b+1) true ++
        List.replicate (c+1) false)).2.2 =
      [KeyEvent.press k, KeyEvent.release k] := by
  rw [List.append_assoc]
  have hp : press_key ⟨[]⟩ k = (⟨[k]⟩, [KeyEvent.press k]) := by
    simp [press_key]
  have hr : release_key ⟨[k]⟩ k = (⟨[]⟩, [KeyEvent.release k]) := by
    simp [release_key]
  obtain ⟨t1, h1, e1⟩ := runButtons1_replicate_false k a [] ⟨[]⟩
    (List.replicate (b+1) true ++ List.replicate (c+1) false) rfl
  rw [e1]
  rw [List.replicate_succ, List.cons_append]
  simp only [runButtons1, hb1_rise k t1 ⟨[]⟩ h1, hp]
  obtain ⟨t2, h2, e2⟩ := runButtons1_replicate_true k b (setB t1 0 true) ⟨[k]⟩
    (List.replicate (c+1) false) (lookupB_setB t1 0 true)
  rw [e2]
  rw [List.replicate_succ]
  simp only [runButtons1, hb1_fall k t2 ⟨[k]⟩ h2, hr]
  obtain ⟨t3, h3, e3⟩ := runButtons1_replicate_false k c (setB t2 0 false) ⟨[]⟩
    [] (lookupB_setB t2 0 false)
  rw [← List.append_nil (List.replicate c false)]
  rw [e3]
  simp [runButtons1]

end G29
